import Mathlib

/-!
Shallow embedding of the radio-control and Morse-keying core of the tlf
repository (rustlf), together with theorems settling the specification
claims about it.  Machine integers are modelled as `Nat`/`Int`; fallible
operations return `Option`/`Except`-like results; the UDP socket and the
hardware-abstraction layer are modelled by recording the datagrams or
hardware actions an operation emits.
-/

namespace Tlf

/-! ## Band lookup (src/rustlf/src/bands.rs) -/

/-- Embeds the loop body of `freq2bandindex`: scan the corner table from
index `i`, returning the index of the first `[bottom, top]` pair whose
inclusive range contains `freq`. -/
def freq2bandindexAux (freq : Nat) : Nat → List (Nat × Nat) → Option Nat
  | _, [] => none
  | i, (bottom, top) :: rest =>
    if bottom ≤ freq ∧ freq ≤ top then some i
    else freq2bandindexAux freq (i + 1) rest

/-- `freq2bandindex` from `bands.rs`: linear scan of the band-corner table
(the `tlf::bandcorner` global, passed here explicitly), first match wins,
`none` is the out-of-band result. -/
def freq2bandindex (corners : List (Nat × Nat)) (freq : Nat) : Option Nat :=
  freq2bandindexAux freq 0 corners

/-- A frequency is inside entry `i` of the table. -/
def inBand (corners : List (Nat × Nat)) (freq : Nat) (i : Nat) : Prop :=
  ∃ bottom top, corners.get? i = some (bottom, top) ∧ bottom ≤ freq ∧ freq ≤ top

instance (corners : List (Nat × Nat)) (freq i : Nat) :
    Decidable (inBand corners freq i) := by
  unfold inBand
  cases h : corners.get? i with
  | none => exact .isFalse (by simp [h])
  | some c =>
    exact decidable_of_iff (c.1 ≤ freq ∧ freq ≤ c.2) (by
      cases c with
      | mk b t => constructor
                  · intro hc; exact ⟨b, t, by simp [h], hc.1, hc.2⟩
                  · rintro ⟨b', t', hbt, h1, h2⟩
                    simp [h] at hbt
                    cases hbt.1; cases hbt.2
                    exact ⟨h1, h2⟩)

/-! ## Network keyer (src/rustlf/src/newtlf/netkeyer.rs and
src/rustlf/src/netkeyer.rs) -/

/-- The single leading escape byte of the cwdaemon wire protocol. -/
def ESC : Nat := 0x1b

/-- Accumulator loop for `asciiDigits`; the fuel bounds the digit count
and always suffices when it is at least the argument plus one. -/
def asciiDigitsAux : Nat → Nat → List Nat → List Nat
  | 0, _, acc => acc
  | fuel + 1, n, acc =>
    if n < 10 then (48 + n) :: acc
    else asciiDigitsAux fuel (n / 10) ((48 + n % 10) :: acc)

/-- ASCII decimal digits of `n`, most significant first, as byte values.
This is the byte sequence the Rust formatting machinery (`write!` with
`{}` on an unsigned integer) produces. -/
def asciiDigits (n : Nat) : List Nat :=
  asciiDigitsAux (n + 1) n []

/-- Outcome of a netkeyer command: parameter rejection before any I/O, a
panic of the 4-byte `Cursor` buffer write, or datagrams handed to
`UdpSocket::send_to` (socket send assumed to succeed). -/
inductive NetCmdResult where
  | invalidParameter
  | panicked
  | sent (datagrams : List (List Nat))
deriving DecidableEq, Repr

/-- `Netkeyer::set_speed` (identical in `netkeyer.rs` and
`newtlf/netkeyer.rs`): a 4-byte buffer is allocated, the speed is
range-checked against `5..=60`, and on success the single datagram
`ESC '2' <decimal speed>` is written into the buffer (panicking if it
would not fit) and sent.  `speed` is a `u8`. -/
def set_speed (speed : Nat) : NetCmdResult :=
  if ¬(5 ≤ speed ∧ speed ≤ 60) then .invalidParameter
  else if 2 + (asciiDigits speed).length ≤ 4 then
    .sent [[ESC, 50] ++ asciiDigits speed]
  else .panicked

/-- State of the `newtlf` Netkeyer: the cached sidetone volume shadow
(`sc_volume : AtomicI8`, initialised to the unset sentinel `-1`). -/
structure NetkeyerState where
  sc_volume : Int
deriving DecidableEq, Repr

/-- Result of a `newtlf` Netkeyer call that may touch the cache: the new
state plus the command outcome. -/
structure VolumeCallResult where
  state : NetkeyerState
  result : NetCmdResult
deriving DecidableEq, Repr

/-- `newtlf::Netkeyer::set_sidetone_volume`: first stores
`volume.try_into().ok().unwrap_or(-1)` into the `sc_volume` cache (an
`i8`, so values above 127 become the sentinel `-1`), and only then
range-checks `volume > 100`, returning `InvalidParameter` without
sending; in range it sends the single datagram `ESC 'g' <decimal>`.
`volume` is a `u8`. -/
def set_sidetone_volume (s : NetkeyerState) (volume : Nat) : VolumeCallResult :=
  let s := { s with sc_volume := if volume ≤ 127 then (volume : Int) else -1 }
  if volume > 100 then ⟨s, .invalidParameter⟩
  else if 2 + (asciiDigits volume).length ≤ 6 then
    ⟨s, .sent [[ESC, 103] ++ asciiDigits volume]⟩
  else ⟨s, .panicked⟩

/-- `newtlf::Netkeyer::set_tone`: `tone` (a `u16`) must be `0` or within
`300..=1000`; the datagram is `ESC '3' <decimal>`. -/
def set_tone (tone : Nat) : NetCmdResult :=
  if tone ≠ 0 ∧ ¬(300 ≤ tone ∧ tone ≤ 1000) then .invalidParameter
  else if 2 + (asciiDigits tone).length ≤ 6 then
    .sent [[ESC, 51] ++ asciiDigits tone]
  else .panicked

/-- `newtlf::Netkeyer::write_tone`: sets the tone; then, for a nonzero
tone, re-sends the sidetone volume to work around a cwdaemon bug, using
the cached `sc_volume` if it converts to a `u8` (i.e. is nonnegative)
and the cwdaemon default of 70 otherwise. -/
def write_tone (s : NetkeyerState) (tone : Nat) : VolumeCallResult :=
  match set_tone tone with
  | .invalidParameter => ⟨s, .invalidParameter⟩
  | .panicked => ⟨s, .panicked⟩
  | .sent dgs =>
    if tone ≠ 0 then
      let sc_volume : Nat := if 0 ≤ s.sc_volume then s.sc_volume.toNat else 70
      match set_sidetone_volume s sc_volume with
      | ⟨s', .sent dgs'⟩ => ⟨s', .sent (dgs ++ dgs')⟩
      | ⟨s', .invalidParameter⟩ => ⟨s', .invalidParameter⟩
      | ⟨s', .panicked⟩ => ⟨s', .panicked⟩
    else ⟨s, .sent dgs⟩

/-! ## Keying byte queue (src/rustlf/src/write_keyer.rs) -/

/-- `KEYER_QUEUE_SIZE` from `write_keyer.rs`. -/
def KEYER_QUEUE_SIZE : Nat := 400

/-- State of the bbqueue bip-buffer backing the keying queue: the backing
store (a list of `KEYER_QUEUE_SIZE` bytes), the consumer's read index,
the producer's committed write index, and the high-water mark `last`
recording where valid data ends when the producer has wrapped. -/
structure BBState where
  buf : List Nat
  read : Nat
  write : Nat
  last : Nat
deriving DecidableEq, Repr

/-- A write grant: the region `[start, start + len)` of the backing store,
together with the `last` mark the grant installs. -/
structure BBGrant where
  start : Nat
  len : Nat
  newLast : Nat
deriving DecidableEq, Repr

/-- Modelled from the spec: the bbqueue dependency's
`Producer::grant_max_remaining` ("splits the input into whatever
contiguous free regions the ring buffer currently offers").  In the
inverted regime (`write < read`) it grants up to `read - write - 1`
bytes at `write`; otherwise it grants the tail region up to the
capacity, or, when the tail is exhausted, inverts and grants up to
`read - 1` bytes from the start; with no free region it fails
(`InsufficientSize`, modelled as `none`). -/
def grant_max_remaining (s : BBState) (sz : Nat) : Option BBGrant :=
  if s.write < s.read then
    let remain := s.read - s.write - 1
    if remain ≠ 0 then some ⟨s.write, min remain sz, s.last⟩ else none
  else
    if s.write ≠ KEYER_QUEUE_SIZE then
      some ⟨s.write, min (KEYER_QUEUE_SIZE - s.write) sz, s.last⟩
    else if s.read > 1 then some ⟨0, min (s.read - 1) sz, s.write⟩
    else none

/-- Overwrite `buf[start .. start + bytes.length)` with `bytes`. -/
def writeAt (buf : List Nat) (start : Nat) (bytes : List Nat) : List Nat :=
  buf.take start ++ bytes ++ buf.drop (start + bytes.length)

/-- Modelled from the spec: committing a full write grant publishes the
copied bytes and advances the producer's write index to the end of the
region. -/
def bb_commit (s : BBState) (g : BBGrant) (bytes : List Nat) : BBState :=
  { s with
    buf := writeAt s.buf g.start bytes
    write := g.start + bytes.length
    last := g.newLast }

/-- The loop of `keyer_append_safe`: repeatedly request a grant for the
remaining text, copy what fits, and stop silently when the queue offers
no space (`InsufficientSize`).  The fuel argument bounds the iteration
count; every taken grant consumes at least one byte of text, so
`text.length` fuel is enough. -/
def keyer_append_loop : Nat → BBState → List Nat → BBState
  | 0, s, _ => s
  | fuel + 1, s, text =>
    if text.isEmpty then s
    else
      match grant_max_remaining s text.length with
      | none => s
      | some g => keyer_append_loop fuel (bb_commit s g (text.take g.len)) (text.drop g.len)

/-- `keyer_append_safe` from `write_keyer.rs`, with the global producer
state made explicit. -/
def keyer_append_safe (s : BBState) (text : List Nat) : BBState :=
  keyer_append_loop text.length s text

/-- `keyer_append_char` from `write_keyer.rs`: append the single byte
`c` (any `u8`, including 0). -/
def keyer_append_char (s : BBState) (c : Nat) : BBState :=
  keyer_append_safe s [c]

/-- `keyer_append` from `write_keyer.rs`: the text arrives as a C string
read with `CStr::from_ptr(..).to_bytes()`, so it can never contain a 0
byte; the bytes are then handed to `keyer_append_safe`. -/
def keyer_append (s : BBState) (text : List Nat) (_h : 0 ∉ text) : BBState :=
  keyer_append_safe s text

/-- The keying queue right after `keyer_queue_init`. -/
def emptyQueue : BBState :=
  ⟨List.replicate KEYER_QUEUE_SIZE 0, 0, 0, KEYER_QUEUE_SIZE⟩

/-- Modelled from the spec: the consumer's `split_read` view as the two
(possibly wrapped) contiguous byte ranges currently queued: when the
producer has wrapped (`write < read`) they are `buf[read..last]` and
`buf[0..write]`, otherwise `buf[read..write]` and an empty second range. -/
def toSegments (s : BBState) : List Nat × List Nat :=
  if s.write < s.read then
    ((s.buf.drop s.read).take (s.last - s.read), s.buf.take s.write)
  else ((s.buf.drop s.read).take (s.write - s.read), [])

/-- `combine_segments` from `write_keyer.rs` (the `Cow` borrow cases only
avoid a copy; the byte content is the concatenation). -/
def combine_segments : List Nat × List Nat → List Nat
  | (left, right) =>
    if right.isEmpty then left
    else if left.isEmpty then right
    else left ++ right

/-- Bytes queued for the consumer, in queue order. -/
def readContents (s : BBState) : List Nat :=
  combine_segments (toSegments s)

/-- `trxmode` values, from the tlf C headers (`SSBMODE`, `CWMODE`,
`DIGIMODE`); only their distinctness matters here. -/
def SSBMODE : Nat := 0

/-- `CWMODE` from the tlf C headers. -/
def CWMODE : Nat := 1

/-- `DIGIMODE` from the tlf C headers. -/
def DIGIMODE : Nat := 2

/-- State seen by one `write_keyer` drain: the atomic flush-request flag
and the `split_read` view of the queue. -/
structure KeyerDrainState where
  flushRequest : Bool
  queued : List Nat × List Nat
deriving DecidableEq, Repr

/-- `keyer_flush` from `write_keyer.rs`: store `true` into the flush
flag; the buffer is untouched. -/
def keyer_flush (s : KeyerDrainState) : KeyerDrainState :=
  { s with flushRequest := true }

/-- What one `write_keyer` call did. -/
inductive DrainOutcome where
  /-- mode is neither CW nor digital: immediate return, flag untouched. -/
  | skipped
  /-- `split_read` found no bytes (`InsufficientSize`): nothing dispatched. -/
  | empty
  /-- flush flag was set: queued bytes released undisplayed, nothing dispatched. -/
  | flushed
  /-- queued bytes converted to a C string and dispatched to the backend. -/
  | dispatched (data : List Nat)
  /-- `CString::new` failed: "Unexpected 0 byte in keyer data" panic. -/
  | panicked
deriving DecidableEq, Repr

/-- `write_keyer` from `write_keyer.rs`: return unless the mode is CW or
digital; atomically take the flush flag; `split_read` the queue
(returning on `InsufficientSize`); on flush release everything, else
convert to a `CString` (panicking on an interior 0 byte) and dispatch. -/
def write_keyer (trxmode : Nat) (s : KeyerDrainState) : KeyerDrainState × DrainOutcome :=
  if trxmode ≠ CWMODE ∧ trxmode ≠ DIGIMODE then (s, .skipped)
  else
    let do_flush := s.flushRequest
    let s := { s with flushRequest := false }
    if s.queued.1.isEmpty ∧ s.queued.2.isEmpty then (s, .empty)
    else if do_flush then ({ s with queued := ([], []) }, .flushed)
    else
      let data := combine_segments s.queued
      if 0 ∈ data then (s, .panicked)
      else ({ s with queued := ([], []) }, .dispatched data)

/-! ## Rig controller (src/rustlf/src/hamlib.rs)

Frequencies (`freq_t`, an `f64` holding whole hertz in this code path)
are modelled as `Int`; the cast to `c_uint` used by the band lookup and
the SSB corner comparison is `Int.toNat`.  Hardware interaction is made
explicit: the values the rig would report are inputs (`PollInputs`) and
every hardware call is recorded as a `RigAction`. -/

/-- `rmode_t` mode bits, from `tlf-sys/src/lib.rs`. -/
def RIG_MODE_NONE : Nat := 0

/-- `RIG_MODE_CW = 1 << 1` from `tlf-sys/src/lib.rs`. -/
def RIG_MODE_CW : Nat := 2

/-- `RIG_MODE_USB = 1 << 2` from `tlf-sys/src/lib.rs`. -/
def RIG_MODE_USB : Nat := 4

/-- `RIG_MODE_LSB = 1 << 3` from `tlf-sys/src/lib.rs`. -/
def RIG_MODE_LSB : Nat := 8

/-- `RIG_MODE_RTTY = 1 << 4` from `tlf-sys/src/lib.rs`. -/
def RIG_MODE_RTTY : Nat := 16

/-- `RIG_MODE_RTTYR = 1 << 8` from `tlf-sys/src/lib.rs`. -/
def RIG_MODE_RTTYR : Nat := 256

/-- Digital keyer selector values from the tlf C headers (`GMFSK`,
`FLDIGI`); only their distinctness matters here. -/
def GMFSK : Nat := 3

/-- `FLDIGI` from the tlf C headers. -/
def FLDIGI : Nat := 4

/-- `Rig::POLL_PERIOD`, in milliseconds. -/
def POLL_PERIOD : Nat := 200

/-- Result of the warm-up `rig_get_vfo` call: a VFO, one of the two
tolerated "not implemented / not available" errors, or a fatal error. -/
inductive VfoResult where
  | ok (vfo : Nat)
  | tolerated
  | fatal
deriving DecidableEq, Repr

/-- The values the hardware abstraction layer and companion program
would report during one poll cycle. -/
structure PollInputs where
  /-- `rig_get_vfo` result. -/
  vfo : VfoResult
  /-- `rig_get_freq` result (`none` = error). -/
  freq : Option Int
  /-- `rig_get_mode` result, mode and passband (`none` = error). -/
  mode : Option (Nat × Int)
  /-- `fldigi_get_carrier()`. -/
  carrier : Int
  /-- Modelled from the spec: `fldigi::get_shifted_freq(mode)`, the
  digital-mode shift offset, `some` only when a nonzero shift is
  pending for an RTTY mode (the function itself is in a revision of
  `fldigi.rs` not present under `src/`; cf. `apply_shift_freq`). -/
  shift : Option Int
  /-- whether the `rig_set_freq` call issued for a pending shift succeeds. -/
  setFreqOk : Bool
  /-- whether the `rig_set_mode` call issued on a band change succeeds. -/
  setModeOk : Bool
  /-- `rig_get_level(RIG_LEVEL_KEYSPD)` result (`none` = error). -/
  keyerSpeed : Option Nat
deriving DecidableEq, Repr

/-- One recorded interaction with the hardware / the rest of the system. -/
inductive RigAction where
  | readVfo
  | readFreq
  | readMode
  | readCarrier
  | readKeyerSpeed
  | setFreq (freq : Int)
  | sendBandswitch (freq : Int)
  | setMode (mode : Nat) (width : Option Int)
  | setKeyerSpeed (speed : Nat)
  | displayCwSpeed (speed : Nat)
deriving DecidableEq, Repr

/-- `RigState` from `hamlib.rs`: the poll snapshot. -/
structure RigState where
  vfo : Option Nat := none
  freq : Option Int := none
  bandwidth : Option Int := none
  mode : Option Nat := none
  bandidx : Option Nat := none
  fldigi_carrier : Option Int := none
  time : Nat
deriving DecidableEq, Repr

/-- `radio_to_display_frequency`: add any digital-mode carrier offset. -/
def radio_to_display_frequency (freq : Int) (state : Option RigState) : Int :=
  freq + ((state.bind RigState.fldigi_carrier).getD 0)

/-- `RigState::poll` from `hamlib.rs`: read VFO (tolerating the two
benign errors, returning early on a fatal one), frequency (returning
early on error), mode and passband (best effort), the fldigi carrier
when in digital mode with a software-modem keyer, and derive the band
index from the display frequency. -/
def RigState.pollHw (corners : List (Nat × Nat)) (time : Nat)
    (trxmode digikeyer : Nat) (inp : PollInputs) : RigState × List RigAction :=
  let out : RigState := { time := time }
  match inp.vfo with
  | .fatal => (out, [.readVfo])
  | v =>
    let out := match v with
      | .ok vfo => { out with vfo := some vfo }
      | _ => out
    match inp.freq with
    | none => (out, [.readVfo, .readFreq])
    | some freq =>
      let out := { out with freq := some freq }
      let out := match inp.mode with
        | some (m, bw) => { out with mode := some m, bandwidth := some bw }
        | none => out
      let digi := trxmode = DIGIMODE ∧ (digikeyer = GMFSK ∨ digikeyer = FLDIGI)
      let out := if digi then { out with fldigi_carrier := some inp.carrier } else out
      let out := { out with
        bandidx := freq2bandindex corners (radio_to_display_frequency freq (some out)).toNat }
      (out, [.readVfo, .readFreq, .readMode] ++ if digi then [.readCarrier] else [])

/-- The `Rig` fields that the poll cycle uses, plus the global CW speed
table index (`cw_utils::SPEED`) that `poll_keyer` reconciles. -/
structure Rig where
  cw_bandwidth : Option Int
  use_keyer : Bool
  state : Option RigState
  speedIdx : Nat
deriving DecidableEq, Repr

/-- `cw_utils::SPEEDS`: the application's discrete speed table. -/
def SPEEDS : List Nat :=
  [6, 12, 14, 16, 18, 20, 22, 24, 26, 28, 30, 32, 34, 36, 38, 40, 42, 44, 46, 48, 50]

/-- `cw_utils::speed_conversion`: index of the first table entry at least
`cwspeed`, or the last index. -/
def speed_conversion (cwspeed : Nat) : Nat :=
  (SPEEDS.findIdx? (fun speed => cwspeed ≤ speed)).getD (SPEEDS.length - 1)

/-- `GetCWSpeed` as a function of the stored index. -/
def GetCWSpeedAt (idx : Nat) : Nat := SPEEDS.getD idx 0

/-- `get_ssb_mode` from `hamlib.rs`: LSB strictly below the 20 m band's
lower corner (`bandcorner[BANDINDEX_20][0]`), USB at or above it. -/
def get_ssb_mode (corner20low : Nat) (freq : Int) : Nat :=
  if freq.toNat < corner20low then RIG_MODE_LSB else RIG_MODE_USB

/-- `Rig::set_band_mode` from `hamlib.rs`, returning the `set_mode` call
it makes, if any: SSB picks the sideband from the frequency; digital
changes mode (to LSB) only when the reported mode has bits outside
LSB|USB|RTTY|RTTYR; otherwise CW with the configured bandwidth. -/
def set_band_mode (cw_bandwidth : Option Int) (corner20low : Nat)
    (trxmode : Nat) (rigmode : Option Nat) (freq : Int) : Option (Nat × Option Int) :=
  if trxmode = SSBMODE then some (get_ssb_mode corner20low freq, none)
  else if trxmode = DIGIMODE then
    let rigmode := rigmode.getD RIG_MODE_NONE
    if rigmode &&& (RIG_MODE_LSB ||| RIG_MODE_USB ||| RIG_MODE_RTTY ||| RIG_MODE_RTTYR)
        ≠ rigmode then
      some (RIG_MODE_LSB, none)
    else none
  else some (RIG_MODE_CW, cw_bandwidth)

/-- `Rig::change_freq` from `hamlib.rs`: fail (`Error::Poll`) if the
frequency read failed; otherwise compute the display frequency, push a
pending digital shift to the rig (propagating a `set_freq` failure),
and hand the display frequency back (its publication to the global
display state is not modelled). -/
def change_freq (state : RigState) (inp : PollInputs) :
    Option Int × List RigAction :=
  match state.freq with
  | none => (none, [])
  | some f =>
    let freq := radio_to_display_frequency f (some state)
    if state.fldigi_carrier.isSome then
      match inp.shift with
      | some shift =>
        if inp.setFreqOk then (some freq, [.setFreq (freq + shift)])
        else (none, [.setFreq (freq + shift)])
      | none => (some freq, [])
    else (some freq, [])

/-- `Rig::poll_keyer` from `hamlib.rs`: when this session uses the rig's
keyer, re-read the hardware keyer speed (failing if the read fails),
and when it differs from the displayed speed, store the rounded value
and redraw the display if rounding changed the number shown.  Returns
the new speed-table index, the actions, and success. -/
def poll_keyer (use_keyer : Bool) (speedIdx : Nat) (inp : PollInputs) :
    Nat × List RigAction × Bool :=
  if ¬use_keyer then (speedIdx, [], true)
  else
    match inp.keyerSpeed with
    | none => (speedIdx, [.readKeyerSpeed], false)
    | some rig_speed =>
      if GetCWSpeedAt speedIdx ≠ rig_speed then
        let idx := speed_conversion rig_speed
        let new_speed := GetCWSpeedAt idx
        if new_speed ≠ rig_speed then
          (idx, [.readKeyerSpeed, .displayCwSpeed new_speed], true)
        else (idx, [.readKeyerSpeed], true)
      else (speedIdx, [.readKeyerSpeed], true)

/-- The outcome of one `Rig::poll` call. -/
structure PollResult where
  rig : Rig
  actions : List RigAction
  ok : Bool
deriving DecidableEq, Repr

/-- The fresh-read path of `Rig::poll` from `hamlib.rs`: take the
previous snapshot, read fresh state, reconcile the frequency, fire
`send_bandswitch` and re-apply the operating mode when the band index
changed, store the new snapshot, and reconcile the keyer speed. -/
def Rig.pollFresh (corners : List (Nat × Nat)) (corner20low : Nat) (rig : Rig)
    (now : Nat) (trxmode digikeyer : Nat) (inp : PollInputs) : PollResult :=
    let previous := rig.state
    let (state, ev1) := RigState.pollHw corners now trxmode digikeyer inp
    match change_freq state inp with
    | (none, ev2) => ⟨{ rig with state := none }, ev1 ++ ev2, false⟩
    | (some freq, ev2) =>
      if state.bandidx ≠ previous.bind RigState.bandidx then
        let modeCall := set_band_mode rig.cw_bandwidth corner20low trxmode state.mode freq
        let ev3 := .sendBandswitch freq ::
          (match modeCall with
           | some (m, w) => [.setMode m w]
           | none => [])
        if modeCall.isSome ∧ ¬inp.setModeOk then
          ⟨{ rig with state := none }, ev1 ++ ev2 ++ ev3, false⟩
        else
          let (idx, ev4, ok4) := poll_keyer rig.use_keyer rig.speedIdx inp
          ⟨{ rig with state := some state, speedIdx := idx },
            ev1 ++ ev2 ++ ev3 ++ ev4, ok4⟩
      else
        let (idx, ev4, ok4) := poll_keyer rig.use_keyer rig.speedIdx inp
        ⟨{ rig with state := some state, speedIdx := idx }, ev1 ++ ev2 ++ ev4, ok4⟩

/-- `Rig::poll` from `hamlib.rs`: skip (reusing the previous snapshot,
touching no hardware, returning `Ok`) when less than `POLL_PERIOD` has
elapsed since the previous snapshot's timestamp, else poll freshly. -/
def Rig.poll (corners : List (Nat × Nat)) (corner20low : Nat) (rig : Rig)
    (now : Nat) (trxmode digikeyer : Nat) (inp : PollInputs) : PollResult :=
  match rig.state with
  | some prev =>
    if now - prev.time < POLL_PERIOD then ⟨rig, [], true⟩
    else Rig.pollFresh corners corner20low rig now trxmode digikeyer inp
  | none => Rig.pollFresh corners corner20low rig now trxmode digikeyer inp

/-- Does a recorded action set the rig's mode? -/
def isModeSet : RigAction → Bool
  | .setMode _ _ => true
  | _ => false

/-- Is a recorded action the band-switch notification? -/
def isBandswitch : RigAction → Bool
  | .sendBandswitch _ => true
  | _ => false

/-- A representative concrete band-corner table (160 m through 10 m, in
hertz), used to instantiate witnesses; the live table is the
`bandcorner` global of the C side of the repository. -/
def bandcornerSample : List (Nat × Nat) :=
  [(1800000, 2000000), (3500000, 4000000), (7000000, 7300000),
   (10100000, 10150000), (14000000, 14350000), (18068000, 18168000),
   (21000000, 21450000), (24890000, 24990000), (28000000, 29700000)]

/-! ## Task queue (src/rustlf/src/workqueue.rs) -/

/-- `workqueue::Error`: enqueue failure and reply-wait failure are
distinct recoverable error values. -/
inductive WorkError where
  | SendError
  | WorkDropped
deriving DecidableEq, Repr

/-- What becomes of a submitted work item: the consumer executes it
(sending the return value back over the single-use reply channel), or
the consumer disappears before replying and the boxed closure is
dropped with its reply sender. -/
inductive ConsumerFate where
  | executes
  | dropsWork
deriving DecidableEq, Repr

/-- `WorkSender::schedule_wait` from `workqueue.rs`.  Modelled from the
spec: the flume channel and the oneshot reply channel are external
crates, so their semantics are taken from the spec's contract —
`schedule_raw`'s `handle.send` fails (`SendError`) exactly when the
consumer side is gone at enqueue time; otherwise the caller blocks on
`recv`, which either yields the value the consumer computed by running
`f` against the context (`ok`), or fails (`WorkDropped`) because the
work item was dropped unexecuted. -/
def schedule_wait {C T : Type} (channelOpen : Bool) (fate : ConsumerFate)
    (ctx : C) (f : C → T) : Except WorkError T :=
  if ¬channelOpen then .error .SendError
  else
    match fate with
    | .executes => .ok (f ctx)
    | .dropsWork => .error .WorkDropped

/-- The worker context of the end-to-end scenario: a record with a
numeric `value` field. -/
structure ScenarioContext where
  value : Nat
deriving DecidableEq, Repr

/-! ## Start/stop gate (src/rustlf/src/background_process.rs)

The condition-variable-guarded flag pair is modelled as a transition
system whose atomic steps are the mutex-protected critical sections of
`stop_background_process`, `start_background_process` and
`background_process_wait`. -/

/-- Where the background thread is in its cycle: at the top (about to run
`background_process_wait`), parked inside `START_COND.wait_while`, or
running the body of the loop. -/
inductive BgPhase where
  | atTop
  | parked
  | running
deriving DecidableEq, Repr

/-- Where the foreground thread is relative to one
`stop_background_process` call: not yet called, blocked inside
`STOPPED_COND.wait_while`, or returned. -/
inductive FgPhase where
  | idle
  | waiting
  | done
deriving DecidableEq, Repr

/-- The shared `StopFlags` record plus the two thread phases. -/
structure GateState where
  stopped : Bool
  stop_request : Bool
  bg : BgPhase
  fg : FgPhase
deriving DecidableEq, Repr

/-- Initial state: `STOP_PROCESS` starts as
`{ stopped: false, stop_request: true }`; the background thread starts
at the top of its loop; no stop call has been made. -/
def gateInit : GateState :=
  ⟨false, true, .atTop, .idle⟩

/-- One atomic (mutex-held) step of either thread.
`fgStopSet`/`fgStopObserve` are the two critical sections of
`stop_background_process` (set `stop_request`, then wake from
`STOPPED_COND.wait_while` only once `stopped` holds); `fgStart` is
`start_background_process` (only callable while the foreground is not
blocked inside a stop call, since both run on the foreground thread);
`bgPark`/`bgProceed`/`bgUnpark` are `background_process_wait` (park
when `stop_request` is set, marking `stopped`; wake from
`START_COND.wait_while` only once `stop_request` is cleared, clearing
`stopped`); `bgCycle` finishes one loop body. -/
inductive GateStep : GateState → GateState → Prop where
  | fgStopSet (s : GateState) : s.fg = .idle →
      GateStep s { s with stop_request := true, fg := .waiting }
  | fgStopObserve (s : GateState) : s.fg = .waiting → s.stopped = true →
      GateStep s { s with fg := .done }
  | fgStart (s : GateState) : s.fg ≠ .waiting →
      GateStep s { s with stop_request := false }
  | bgPark (s : GateState) : s.bg = .atTop → s.stop_request = true →
      GateStep s { s with stopped := true, bg := .parked }
  | bgProceed (s : GateState) : s.bg = .atTop → s.stop_request = false →
      GateStep s { s with bg := .running }
  | bgUnpark (s : GateState) : s.bg = .parked → s.stop_request = false →
      GateStep s { s with stopped := false, bg := .running }
  | bgCycle (s : GateState) : s.bg = .running →
      GateStep s { s with bg := .atTop }

/-- States reachable from the initial state. -/
inductive GateReachable : GateState → Prop where
  | init : GateReachable gateInit
  | step {s s' : GateState} : GateReachable s → GateStep s s' → GateReachable s'

/-- The inductive invariant of the gate: `stopped` only holds while the
background thread is parked; the foreground blocks in a stop call only
while its request stands; once a stop call has returned, either a start
call has since cleared the request, or the background thread is parked
with `stopped` still set. -/
def GateInv (s : GateState) : Prop :=
  (s.stopped = true → s.bg = .parked) ∧
  (s.fg = .waiting → s.stop_request = true) ∧
  (s.fg = .done → s.stop_request = false ∨ (s.bg = .parked ∧ s.stopped = true))

/-! ## Theorems -/

lemma inBand_cons_zero (c : Nat × Nat) (rest : List (Nat × Nat)) (freq : Nat) :
    inBand (c :: rest) freq 0 ↔ c.1 ≤ freq ∧ freq ≤ c.2 := by
  cases c with
  | mk b t =>
    constructor
    · rintro ⟨b', t', h, h1, h2⟩
      simp at h
      cases h.1; cases h.2
      exact ⟨h1, h2⟩
    · intro h
      exact ⟨b, t, by simp, h.1, h.2⟩

lemma inBand_cons_succ (c : Nat × Nat) (rest : List (Nat × Nat)) (freq k : Nat) :
    inBand (c :: rest) freq (k + 1) ↔ inBand rest freq k := by
  unfold inBand
  simp

lemma freq2bandindexAux_some_iff (freq : Nat) (corners : List (Nat × Nat)) :
    ∀ (i j : Nat),
      freq2bandindexAux freq i corners = some j ↔
        (i ≤ j ∧ inBand corners freq (j - i) ∧ ∀ l < j - i, ¬ inBand corners freq l) := by
  induction corners with
  | nil => intro i j; simp [freq2bandindexAux, inBand]
  | cons c rest ih =>
    intro i j
    obtain ⟨b, t⟩ := c
    by_cases h : b ≤ freq ∧ freq ≤ t
    · simp only [freq2bandindexAux, if_pos h]
      constructor
      · rintro hj
        cases hj
        refine ⟨Nat.le_refl _, ?_, ?_⟩
        · simpa [Nat.sub_self] using (inBand_cons_zero (b, t) rest freq).mpr h
        · intro l hl; omega
      · rintro ⟨hij, _, hmin⟩
        by_cases hji : j = i
        · simp [hji]
        · exfalso
          exact hmin 0 (by omega) ((inBand_cons_zero (b, t) rest freq).mpr h)
    · simp only [freq2bandindexAux, if_neg h]
      rw [ih (i + 1) j]
      constructor
      · rintro ⟨hij, hband, hmin⟩
        refine ⟨by omega, ?_, ?_⟩
        · have : j - i = (j - (i + 1)) + 1 := by omega
          rw [this, inBand_cons_succ]
          exact hband
        · intro l hl
          match l with
          | 0 =>
            rw [inBand_cons_zero]
            exact h
          | Nat.succ m =>
            rw [inBand_cons_succ]
            exact hmin m (by omega)
      · rintro ⟨hij, hband, hmin⟩
        have hji : j ≠ i := by
          intro hji
          subst hji
          rw [Nat.sub_self, inBand_cons_zero] at hband
          exact h hband
        refine ⟨by omega, ?_, ?_⟩
        · have : j - i = (j - (i + 1)) + 1 := by omega
          rw [this, inBand_cons_succ] at hband
          exact hband
        · intro l hl
          have := hmin (l + 1) (by omega)
          rw [inBand_cons_succ] at this
          exact this

lemma freq2bandindexAux_none_iff (freq : Nat) (corners : List (Nat × Nat)) :
    ∀ (i : Nat),
      freq2bandindexAux freq i corners = none ↔ ∀ k, ¬ inBand corners freq k := by
  induction corners with
  | nil => intro i; simp [freq2bandindexAux, inBand]
  | cons c rest ih =>
    intro i
    obtain ⟨b, t⟩ := c
    by_cases h : b ≤ freq ∧ freq ≤ t
    · simp only [freq2bandindexAux, if_pos h]
      constructor
      · intro hcontra; cases hcontra
      · intro hall
        exact absurd ((inBand_cons_zero (b, t) rest freq).mpr h) (hall 0)
    · simp only [freq2bandindexAux, if_neg h]
      rw [ih (i + 1)]
      constructor
      · intro hall k
        match k with
        | 0 => rw [inBand_cons_zero]; exact h
        | Nat.succ m => rw [inBand_cons_succ]; exact hall m
      · intro hall k
        have := hall (k + 1)
        rw [inBand_cons_succ] at this
        exact this

/-- C2: `freq2bandindex` returns `some i` exactly when entry `i` of the
band-corner table is the first `[bottom, top]` pair whose inclusive
range contains the frequency, and returns `none` (the out-of-band
result) exactly when no entry's range contains it. -/
theorem freq2bandindex_first_match (corners : List (Nat × Nat)) (freq : Nat) :
    (∀ i, freq2bandindex corners freq = some i ↔
        (inBand corners freq i ∧ ∀ j < i, ¬ inBand corners freq j)) ∧
    (freq2bandindex corners freq = none ↔ ∀ i, ¬ inBand corners freq i) := by
  constructor
  · intro i
    unfold freq2bandindex
    rw [freq2bandindexAux_some_iff]
    constructor
    · rintro ⟨_, hband, hmin⟩
      rw [Nat.sub_zero] at hband hmin
      exact ⟨hband, hmin⟩
    · rintro ⟨hband, hmin⟩
      exact ⟨Nat.zero_le _, by rwa [Nat.sub_zero], by rwa [Nat.sub_zero]⟩
  · unfold freq2bandindex
    exact freq2bandindexAux_none_iff freq corners 0

lemma asciiDigits_lt10 (n : Nat) (h : n < 10) : asciiDigits n = [48 + n] := by
  simp [asciiDigits, asciiDigitsAux, h]

lemma asciiDigits_two_digits (n : Nat) (h1 : 10 ≤ n) (h2 : n < 100) :
    asciiDigits n = [48 + n / 10, 48 + n % 10] := by
  obtain ⟨m, rfl⟩ : ∃ m, n = m + 1 := ⟨n - 1, by omega⟩
  simp [asciiDigits, asciiDigitsAux, show ¬(m + 1 < 10) by omega,
    show (m + 1) / 10 < 10 by omega]

lemma asciiDigits_length_le_two (n : Nat) (h : n < 100) :
    (asciiDigits n).length ≤ 2 := by
  by_cases h10 : n < 10
  · rw [asciiDigits_lt10 n h10]; simp
  · rw [asciiDigits_two_digits n (by omega) h]; simp

lemma asciiDigits_three_digits (n : Nat) (h1 : 100 ≤ n) (h2 : n < 1000) :
    asciiDigits n = [48 + n / 100, 48 + n / 10 % 10, 48 + n % 10] := by
  obtain ⟨m, rfl⟩ : ∃ m, n = m + 2 := ⟨n - 2, by omega⟩
  simp [asciiDigits, asciiDigitsAux, show ¬(m + 2 < 10) by omega,
    show ¬((m + 2) / 10 < 10) by omega, show (m + 2) / 10 / 10 < 10 by omega,
    show (m + 2) / 100 < 10 by omega, Nat.div_div_eq_div_mul]

lemma asciiDigits_length_le_four (n : Nat) (h : n < 10000) :
    (asciiDigits n).length ≤ 4 := by
  by_cases h2 : n < 100
  · have := asciiDigits_length_le_two n h2; omega
  · by_cases h3 : n < 1000
    · rw [asciiDigits_three_digits n (by omega) h3]; simp
    · obtain ⟨m, rfl⟩ : ∃ m, n = m + 3 := ⟨n - 3, by omega⟩
      simp [asciiDigits, asciiDigitsAux, show ¬(m + 3 < 10) by omega,
        show ¬((m + 3) / 10 < 10) by omega, show ¬((m + 3) / 10 / 10 < 10) by omega,
        show (m + 3) / 10 / 10 / 10 < 10 by omega]

/-- C3: `Netkeyer::set_speed` with a speed outside `5..=60` fails with
`InvalidParameter` and sends no datagram; inside the range it sends
exactly one datagram, whose payload is the escape byte, the character
`'2'`, and the ASCII decimal digits of the speed. -/
theorem set_speed_validates (speed : Nat) :
    (¬(5 ≤ speed ∧ speed ≤ 60) → set_speed speed = .invalidParameter) ∧
    (5 ≤ speed → speed ≤ 60 →
      set_speed speed = .sent [[ESC, 50] ++ asciiDigits speed]) := by
  refine ⟨fun h => ?_, fun h5 h60 => ?_⟩
  · unfold set_speed
    rw [if_pos h]
  · have hlen : (asciiDigits speed).length ≤ 2 :=
      asciiDigits_length_le_two speed (by omega)
    unfold set_speed
    rw [if_neg (not_not_intro ⟨h5, h60⟩), if_pos (by omega)]

/-- Witness for C3 at the spec's own boundary inputs. -/
theorem set_speed_validates_witness :
    set_speed 4 = .invalidParameter ∧ set_speed 61 = .invalidParameter ∧
    set_speed 5 = .sent [[27, 50, 53]] ∧ set_speed 60 = .sent [[27, 50, 54, 48]] := by
  refine ⟨(set_speed_validates 4).1 (by omega), (set_speed_validates 61).1 (by omega),
    ?_, ?_⟩
  · have h := (set_speed_validates 5).2 (by omega) (by omega)
    rw [h]; decide
  · have h := (set_speed_validates 60).2 (by omega) (by omega)
    rw [h]; decide

/-- C10: `newtlf::Netkeyer::set_sidetone_volume` overwrites the cached
sidetone volume before validating: for every `volume > 100` (a `u8`,
so at most 255) the call returns `InvalidParameter` and sends nothing,
yet the cache now holds the rejected value (when it fits an `i8`) or
the `-1` sentinel; a subsequent `write_tone` with a nonzero tone then
re-sends the rejected volume (failing again) or the 70% default,
instead of the last accepted volume. -/
theorem set_sidetone_volume_dirty_cache (s : NetkeyerState) (v : Nat)
    (hv : 100 < v) (hv255 : v ≤ 255) :
    (set_sidetone_volume s v).result = .invalidParameter ∧
    (set_sidetone_volume s v).state.sc_volume =
      (if v ≤ 127 then (v : Int) else -1) ∧
    (∀ tone, tone ≠ 0 → 300 ≤ tone → tone ≤ 1000 →
      (v ≤ 127 →
        write_tone (set_sidetone_volume s v).state tone =
          ⟨⟨(v : Int)⟩, .invalidParameter⟩) ∧
      (128 ≤ v →
        write_tone (set_sidetone_volume s v).state tone =
          ⟨⟨70⟩, .sent [[ESC, 51] ++ asciiDigits tone, [ESC, 103, 55, 48]]⟩)) := by
  have hres : set_sidetone_volume s v =
      ⟨⟨if v ≤ 127 then (v : Int) else -1⟩, .invalidParameter⟩ := by
    unfold set_sidetone_volume
    rw [if_pos hv]
  refine ⟨by rw [hres], by rw [hres], fun tone ht0 ht1 ht2 => ⟨fun h127 => ?_, fun h128 => ?_⟩⟩
  · have htone : set_tone tone = .sent [[ESC, 51] ++ asciiDigits tone] := by
      unfold set_tone
      rw [if_neg (by push_neg; intro _; omega),
        if_pos (by have := asciiDigits_length_le_four tone (by omega); omega)]
    rw [hres]
    unfold write_tone
    rw [htone]
    simp only [if_pos h127, if_pos ht0]
    have : (0 : Int) ≤ (v : Int) := by positivity
    rw [if_pos this]
    have hcast : ((v : Int).toNat) = v := by omega
    rw [hcast]
    have : set_sidetone_volume ⟨(v : Int)⟩ v =
        ⟨⟨if v ≤ 127 then (v : Int) else -1⟩, .invalidParameter⟩ := by
      unfold set_sidetone_volume
      rw [if_pos hv]
    rw [this]
    simp [if_pos h127]
  · have htone : set_tone tone = .sent [[ESC, 51] ++ asciiDigits tone] := by
      unfold set_tone
      rw [if_neg (by push_neg; intro _; omega),
        if_pos (by have := asciiDigits_length_le_four tone (by omega); omega)]
    rw [hres]
    unfold write_tone
    rw [htone]
    simp only [if_neg (show ¬ v ≤ 127 by omega), if_pos ht0]
    rw [if_neg (by norm_num)]
    have h70 : set_sidetone_volume ⟨(-1 : Int)⟩ 70 =
        ⟨⟨70⟩, .sent [[ESC, 103, 55, 48]]⟩ := by
      unfold set_sidetone_volume
      norm_num
      decide
    rw [h70]
    rfl

/-- Witness for C10 at volume 101 (fits an `i8`) and 200 (does not),
with tone 600. -/
theorem set_sidetone_volume_dirty_cache_witness :
    (set_sidetone_volume ⟨50⟩ 101).result = .invalidParameter ∧
    (set_sidetone_volume ⟨50⟩ 101).state.sc_volume = 101 ∧
    write_tone (set_sidetone_volume ⟨50⟩ 101).state 600 = ⟨⟨101⟩, .invalidParameter⟩ ∧
    (set_sidetone_volume ⟨50⟩ 200).state.sc_volume = -1 ∧
    write_tone (set_sidetone_volume ⟨50⟩ 200).state 600 =
      ⟨⟨70⟩, .sent [[27, 51, 54, 48, 48], [27, 103, 55, 48]]⟩ := by
  have h101 := set_sidetone_volume_dirty_cache ⟨50⟩ 101 (by omega) (by omega)
  have h200 := set_sidetone_volume_dirty_cache ⟨50⟩ 200 (by omega) (by omega)
  refine ⟨h101.1, ?_, ?_, ?_, ?_⟩
  · rw [h101.2.1]; norm_num
  · have := (h101.2.2 600 (by omega) (by omega) (by omega)).1 (by omega)
    rw [this]; norm_num
  · rw [h200.2.1]; norm_num
  · have := (h200.2.2 600 (by omega) (by omega) (by omega)).2 (by omega)
    rw [this]; decide

/-- C5: `keyer_flush` is idempotent — two (or more) flush requests before
the next drain act exactly like one.  `keyer_flush` itself only sets the
flag and leaves the queued bytes alone; the next `write_keyer` call in
CW or digital mode then discards everything queued at drain time,
dispatches nothing to any backend, and leaves the flush flag cleared. -/
theorem keyer_flush_idempotent (s : KeyerDrainState) (trxmode : Nat) :
    keyer_flush (keyer_flush s) = keyer_flush s ∧
    (keyer_flush s).queued = s.queued ∧
    (trxmode = CWMODE ∨ trxmode = DIGIMODE →
      (write_keyer trxmode (keyer_flush s)).1.flushRequest = false ∧
      (write_keyer trxmode (keyer_flush s)).1.queued = ([], []) ∧
      ∀ d, (write_keyer trxmode (keyer_flush s)).2 ≠ .dispatched d) := by
  refine ⟨rfl, rfl, fun hmode => ?_⟩
  have hnotskip : ¬(trxmode ≠ CWMODE ∧ trxmode ≠ DIGIMODE) := by
    rcases hmode with h | h <;> simp [h]
  unfold write_keyer
  rw [if_neg hnotskip]
  simp only [keyer_flush]
  by_cases hempty : s.queued.1.isEmpty ∧ s.queued.2.isEmpty
  · rw [if_pos hempty]
    refine ⟨rfl, ?_, by intro d h; cases h⟩
    show s.queued = ([], [])
    have h1 : s.queued.1 = [] := by simpa using hempty.1
    have h2 : s.queued.2 = [] := by simpa using hempty.2
    exact Prod.ext h1 h2
  · rw [if_neg hempty]
    exact ⟨rfl, rfl, by intro d h; cases h⟩

/-- Witness for C5 with a nonempty queue in CW mode. -/
theorem keyer_flush_idempotent_witness :
    keyer_flush (keyer_flush ⟨false, ([1, 2], [3])⟩) = keyer_flush ⟨false, ([1, 2], [3])⟩ ∧
    (write_keyer CWMODE (keyer_flush ⟨false, ([1, 2], [3])⟩)).1.queued = ([], []) ∧
    (write_keyer CWMODE (keyer_flush ⟨false, ([1, 2], [3])⟩)).1.flushRequest = false := by
  have h := keyer_flush_idempotent ⟨false, ([1, 2], [3])⟩ CWMODE
  have h3 := h.2.2 (Or.inl rfl)
  exact ⟨h.1, h3.2.1, h3.1⟩

lemma keyer_append_loop_nil (fuel : Nat) (s : BBState) :
    keyer_append_loop fuel s [] = s := by
  cases fuel <;> simp [keyer_append_loop]

lemma readContents_mk (buf : List Nat) (w l : Nat) :
    readContents ⟨buf, 0, w, l⟩ = buf.take w := by
  simp [readContents, toSegments, combine_segments]

lemma grant_full (buf : List Nat) (l sz : Nat) :
    grant_max_remaining ⟨buf, 0, KEYER_QUEUE_SIZE, l⟩ sz = none := by
  simp [grant_max_remaining]

/-- One `keyer_append_safe` call starting from the freshly initialised
queue: the first `KEYER_QUEUE_SIZE` bytes of the text land at the start
of the backing store and the write index advances by the amount copied;
any excess is discarded. -/
lemma keyer_append_safe_empty (text : List Nat) :
    keyer_append_safe emptyQueue text =
      ⟨text.take KEYER_QUEUE_SIZE ++ List.replicate (KEYER_QUEUE_SIZE - text.length) 0,
        0, min KEYER_QUEUE_SIZE text.length, KEYER_QUEUE_SIZE⟩ := by
  cases text with
  | nil =>
    simp [keyer_append_safe, keyer_append_loop, emptyQueue]
  | cons a rest =>
    have hgrant : grant_max_remaining emptyQueue (rest.length + 1) =
        some ⟨0, min KEYER_QUEUE_SIZE (rest.length + 1), KEYER_QUEUE_SIZE⟩ := rfl
    show keyer_append_loop (rest.length + 1) emptyQueue (a :: rest) = _
    rw [keyer_append_loop, if_neg (by simp)]
    simp only [List.length_cons]
    rw [hgrant]
    show keyer_append_loop rest.length
        (bb_commit emptyQueue ⟨0, min KEYER_QUEUE_SIZE (rest.length + 1), KEYER_QUEUE_SIZE⟩
          ((a :: rest).take (min KEYER_QUEUE_SIZE (rest.length + 1))))
        ((a :: rest).drop (min KEYER_QUEUE_SIZE (rest.length + 1))) = _
    have hklen : ((a :: rest).take (min KEYER_QUEUE_SIZE (rest.length + 1))).length
        = min KEYER_QUEUE_SIZE (rest.length + 1) := by
      rw [List.length_take, List.length_cons]
      omega
    have hbuf : emptyQueue.buf = List.replicate KEYER_QUEUE_SIZE 0 := rfl
    have hread : emptyQueue.read = 0 := rfl
    have hcommit : bb_commit emptyQueue
        ⟨0, min KEYER_QUEUE_SIZE (rest.length + 1), KEYER_QUEUE_SIZE⟩
        ((a :: rest).take (min KEYER_QUEUE_SIZE (rest.length + 1))) =
        ⟨(a :: rest).take (min KEYER_QUEUE_SIZE (rest.length + 1)) ++
            List.replicate (KEYER_QUEUE_SIZE - min KEYER_QUEUE_SIZE (rest.length + 1)) 0,
          0, min KEYER_QUEUE_SIZE (rest.length + 1), KEYER_QUEUE_SIZE⟩ := by
      simp [bb_commit, writeAt, hbuf, hread, hklen, List.drop_replicate]
    rw [hcommit]
    by_cases hle : rest.length + 1 ≤ KEYER_QUEUE_SIZE
    · have hmin : min KEYER_QUEUE_SIZE (rest.length + 1) = rest.length + 1 :=
        Nat.min_eq_right hle
      rw [hmin]
      have hdrop : (a :: rest).drop (rest.length + 1) = [] :=
        List.drop_eq_nil_of_le (by simp)
      rw [hdrop, keyer_append_loop_nil]
      have htake : (a :: rest).take (rest.length + 1) = a :: rest :=
        List.take_of_length_le (by simp)
      have htake' : (a :: rest).take KEYER_QUEUE_SIZE = a :: rest :=
        List.take_of_length_le (by simpa using hle)
      simp [htake, htake', hmin]
    · have hmin : min KEYER_QUEUE_SIZE (rest.length + 1) = KEYER_QUEUE_SIZE :=
        Nat.min_eq_left (by omega)
      rw [hmin]
      have hdropne : (a :: rest).drop KEYER_QUEUE_SIZE ≠ [] := by
        rw [Ne, List.drop_eq_nil_iff]
        simp only [List.length_cons]
        omega
      have hne : ((a :: rest).drop KEYER_QUEUE_SIZE).isEmpty = false := by
        rw [← Bool.not_eq_true, List.isEmpty_iff]
        exact hdropne
      obtain ⟨m, hm⟩ : ∃ m, rest.length = m + 1 := by
        refine ⟨rest.length - 1, ?_⟩
        have hk : KEYER_QUEUE_SIZE = 400 := rfl
        omega
      rw [hm, keyer_append_loop, if_neg (by simp [hne]), grant_full]
      have h0 : KEYER_QUEUE_SIZE - (m + 1 + 1) = 0 := by
        have hk : KEYER_QUEUE_SIZE = 400 := rfl
        omega
      simp [h0, Nat.sub_self]

/-- The consumer's view after one append into the fresh queue: the first
`KEYER_QUEUE_SIZE` bytes of the text, in order. -/
lemma readContents_append_empty (text : List Nat) :
    readContents (keyer_append_safe emptyQueue text) = text.take KEYER_QUEUE_SIZE := by
  rw [keyer_append_safe_empty text, readContents_mk]
  by_cases hle : text.length ≤ KEYER_QUEUE_SIZE
  · rw [Nat.min_eq_right hle, List.take_of_length_le hle]
    exact List.take_left' rfl
  · have h0 : KEYER_QUEUE_SIZE - text.length = 0 := by omega
    rw [h0, Nat.min_eq_left (by omega),
      show (List.replicate 0 (0:Nat)) = [] from rfl, List.append_nil,
      List.take_take, Nat.min_self]

/-- C4: appending a byte string longer than the 400-byte capacity to the
initially empty keying queue in one `keyer_append` call retains exactly
`KEYER_QUEUE_SIZE` bytes, and they are precisely the first
`KEYER_QUEUE_SIZE` bytes of the input in order; the excess is silently
discarded (the append loop terminates normally, returning the state
instead of blocking or panicking). -/
theorem keyer_append_overflow (text : List Nat) (h : KEYER_QUEUE_SIZE < text.length) :
    readContents (keyer_append_safe emptyQueue text) = text.take KEYER_QUEUE_SIZE ∧
    (readContents (keyer_append_safe emptyQueue text)).length = KEYER_QUEUE_SIZE := by
  rw [readContents_append_empty text]
  refine ⟨rfl, ?_⟩
  rw [List.length_take]
  omega

/-- Witness for C4: a 401-byte input. -/
theorem keyer_append_overflow_witness :
    KEYER_QUEUE_SIZE < (List.replicate 401 65).length ∧
    readContents (keyer_append_safe emptyQueue (List.replicate 401 65)) =
      (List.replicate 401 65).take KEYER_QUEUE_SIZE :=
  ⟨by rw [List.length_replicate]; decide,
    (keyer_append_overflow (List.replicate 401 65) (by rw [List.length_replicate]; decide)).1⟩

/-- C9: a NUL byte reaches the drain's C-string conversion only through
`keyer_append_char`.  First conjunct: whenever the drained bytes contain
a 0 and the flush flag is clear, a CW/digital-mode `write_keyer` call
panics ("Unexpected 0 byte in keyer data").  Second conjunct: enqueueing
the single byte 0 via `keyer_append_char` into the empty queue makes the
next CW-mode drain panic.  Third conjunct: any queue filled by a
`keyer_append` call (whose C-string input can never contain an interior
NUL) never makes the drain panic. -/
theorem keyer_nul_byte_panic :
    (∀ (trxmode : Nat) (s : KeyerDrainState),
      (trxmode = CWMODE ∨ trxmode = DIGIMODE) → s.flushRequest = false →
      0 ∈ combine_segments s.queued →
      (write_keyer trxmode s).2 = .panicked) ∧
    write_keyer CWMODE ⟨false, toSegments (keyer_append_char emptyQueue 0)⟩ =
      (⟨false, ([0], [])⟩, .panicked) ∧
    (∀ (trxmode : Nat) (text : List Nat) (s : KeyerDrainState), 0 ∉ text →
      s.queued = toSegments (keyer_append_safe emptyQueue text) →
      (write_keyer trxmode s).2 ≠ .panicked) := by
  refine ⟨?_, ?_, ?_⟩
  · rintro trxmode ⟨flush, l, r⟩ hmode hflush hmem
    have hflush' : flush = false := hflush
    subst hflush'
    have hnotskip : ¬(trxmode ≠ CWMODE ∧ trxmode ≠ DIGIMODE) := by
      rcases hmode with h | h <;> simp [h]
    have hq : ¬(l = [] ∧ r = []) := by
      rintro ⟨rfl, rfl⟩
      simp [combine_segments] at hmem
    unfold write_keyer
    rw [if_neg hnotskip]
    simp [hq, hmem]
  · have hseg : toSegments (keyer_append_char emptyQueue 0) = ([0], []) := by
      unfold keyer_append_char
      rw [keyer_append_safe_empty]
      rw [show ([0] : List Nat).take KEYER_QUEUE_SIZE = [0] from
          List.take_of_length_le (by decide)]
      rw [show min KEYER_QUEUE_SIZE ([0] : List Nat).length = 1 from by decide]
      simp [toSegments]
    rw [hseg]
    decide
  · intro trxmode text s hnotin hq
    have hcontents : combine_segments s.queued = text.take KEYER_QUEUE_SIZE := by
      rw [hq]
      exact readContents_append_empty text
    have hno0 : 0 ∉ combine_segments s.queued := by
      rw [hcontents]
      intro hmem
      exact hnotin (List.mem_of_mem_take hmem)
    intro hcontra
    simp only [write_keyer] at hcontra
    split_ifs at hcontra

/-- Witness for C9 at concrete inputs: a queue holding `[5, 0]` in
digital mode, and a nul-free append of `"A"` in CW mode. -/
theorem keyer_nul_byte_panic_witness :
    (write_keyer DIGIMODE ⟨false, ([5, 0], [])⟩).2 = .panicked ∧
    (write_keyer CWMODE
        ⟨false, toSegments (keyer_append_safe emptyQueue [65])⟩).2 ≠ .panicked := by
  constructor
  · exact keyer_nul_byte_panic.1 DIGIMODE ⟨false, ([5, 0], [])⟩ (Or.inr rfl) rfl (by decide)
  · exact keyer_nul_byte_panic.2.2 CWMODE [65] _ (by decide) rfl

/-- C7: `schedule_wait(f)` blocks until the consumer has executed `f`
against the worker context and returns exactly `f`'s return value; it
fails with `SendError` when the channel is already closed at enqueue
time and with `WorkDropped` when the consumer disappears before
replying.  The last conjunct is the spec's end-to-end scenario: context
value 41 and `f = fun ctx => ctx.value + 1` yield 42. -/
theorem schedule_wait_spec (C T : Type) (ctx : C) (f : C → T) (fate : ConsumerFate) :
    schedule_wait true .executes ctx f = .ok (f ctx) ∧
    schedule_wait false fate ctx f = .error .SendError ∧
    schedule_wait true .dropsWork ctx f = .error .WorkDropped ∧
    schedule_wait true .executes (ScenarioContext.mk 41)
      (fun c => c.value + 1) = .ok 42 := by
  exact ⟨rfl, rfl, rfl, rfl⟩

lemma gateInv_init : GateInv gateInit := by
  refine ⟨?_, ?_, ?_⟩ <;> intro h <;> simp [gateInit] at h

lemma gateInv_step {s s' : GateState} (hinv : GateInv s) (hstep : GateStep s s') :
    GateInv s' := by
  obtain ⟨i1, i2, i3⟩ := hinv
  cases hstep with
  | fgStopSet hfg =>
    refine ⟨fun h => i1 h, fun _ => rfl, fun h => ?_⟩
    simp at h
  | fgStopObserve hfg hstopped =>
    refine ⟨fun h => i1 h, fun h => ?_, fun _ => ?_⟩
    · simp at h
    · exact Or.inr ⟨i1 hstopped, hstopped⟩
  | fgStart hfg =>
    exact ⟨fun h => i1 h, fun h => absurd h hfg, fun _ => Or.inl rfl⟩
  | bgPark hbg hreq =>
    refine ⟨fun _ => rfl, fun h => i2 h, fun h => ?_⟩
    rcases i3 h with h' | ⟨hparked, _⟩
    · rw [h'] at hreq; cases hreq
    · rw [hparked] at hbg; cases hbg
  | bgProceed hbg hreq =>
    refine ⟨fun h => ?_, fun h => i2 h, fun h => ?_⟩
    · rw [i1 h] at hbg; cases hbg
    · exact Or.inl hreq
  | bgUnpark hbg hreq =>
    refine ⟨fun h => ?_, fun h => i2 h, fun _ => Or.inl hreq⟩
    simp at h
  | bgCycle hbg =>
    refine ⟨fun h => ?_, fun h => i2 h, fun h => ?_⟩
    · rw [i1 h] at hbg; cases hbg
    · rcases i3 h with h' | ⟨hparked, _⟩
      · exact Or.inl h'
      · rw [hparked] at hbg; cases hbg

lemma gateInv_reachable {s : GateState} (h : GateReachable s) : GateInv s := by
  induction h with
  | init => exact gateInv_init
  | step _ hstep ih => exact gateInv_step ih hstep

/-- C8: the stop gate gives a synchronous quiescence guarantee.  In every
reachable state in which `stop_background_process` has returned and the
stop request still stands (no `start_background_process` since), the
background thread is parked at the top of its cycle with `stopped`
set; moreover no step taken while `stop_request` holds un-parks the
background thread — only clearing `stop_request` (the start call) lets
it proceed.  The model's `fgStopObserve` step is exactly the source's
behaviour of setting `stop_request` and then blocking until `stopped`
holds. -/
theorem stop_background_quiescence :
    (∀ s : GateState, GateReachable s → s.fg = .done → s.stop_request = true →
      s.bg = .parked ∧ s.stopped = true) ∧
    (∀ s s' : GateState, GateStep s s' → s.bg = .parked → s.stop_request = true →
      s'.bg = .parked) := by
  constructor
  · intro s hreach hdone hreq
    rcases (gateInv_reachable hreach).2.2 hdone with h' | h
    · rw [h'] at hreq; cases hreq
    · exact h
  · intro s s' hstep hparked hreq
    cases hstep with
    | fgStopSet hfg => exact hparked
    | fgStopObserve hfg hstopped => exact hparked
    | fgStart hfg => exact hparked
    | bgPark hbg _ => rfl
    | bgProceed hbg _ => rw [hparked] at hbg; cases hbg
    | bgUnpark hbg hreq' => rw [hreq] at hreq'; cases hreq'
    | bgCycle hbg => rw [hparked] at hbg; cases hbg

/-- Witness for C8: the concrete run park → stop-set → stop-observe
reaches a state with the stop call returned, where the theorem yields
parked-and-stopped; a subsequent `fgStart` step keeps the thread
parked. -/
theorem stop_background_quiescence_witness :
    (⟨true, true, .parked, .done⟩ : GateState).bg = .parked ∧
    (⟨true, true, .parked, .done⟩ : GateState).stopped = true ∧
    (⟨true, false, .parked, .done⟩ : GateState).bg = .parked := by
  have h1 : GateReachable ⟨true, true, .parked, .idle⟩ := by
    have := GateReachable.step GateReachable.init
      (GateStep.bgPark gateInit rfl rfl)
    simpa [gateInit] using this
  have h2 : GateReachable ⟨true, true, .parked, .waiting⟩ :=
    GateReachable.step h1 (GateStep.fgStopSet ⟨true, true, .parked, .idle⟩ rfl)
  have h3 : GateReachable ⟨true, true, .parked, .done⟩ :=
    GateReachable.step h2
      (GateStep.fgStopObserve ⟨true, true, .parked, .waiting⟩ rfl rfl)
  have hmain := stop_background_quiescence.1 _ h3 rfl rfl
  have hstep := stop_background_quiescence.2 ⟨true, true, .parked, .done⟩
    ⟨true, false, .parked, .done⟩
    (GateStep.fgStart ⟨true, true, .parked, .done⟩ (by simp)) rfl rfl
  exact ⟨hmain.1, hmain.2, hstep⟩

lemma pollHw_time_head (corners : List (Nat × Nat)) (time trxmode digikeyer : Nat)
    (inp : PollInputs) :
    (RigState.pollHw corners time trxmode digikeyer inp).1.time = time ∧
    (RigState.pollHw corners time trxmode digikeyer inp).2.head? = some .readVfo := by
  unfold RigState.pollHw
  cases hv : inp.vfo <;> cases hf : inp.freq <;>
    rcases hm : inp.mode with _ | ⟨m, bw⟩ <;>
    simp [hv, hf, hm] <;> split_ifs <;> simp

lemma pollHw_filter (corners : List (Nat × Nat)) (time trxmode digikeyer : Nat)
    (inp : PollInputs) :
    (RigState.pollHw corners time trxmode digikeyer inp).2.filter isModeSet = [] ∧
    (RigState.pollHw corners time trxmode digikeyer inp).2.filter isBandswitch = [] := by
  unfold RigState.pollHw
  cases hv : inp.vfo <;> cases hf : inp.freq <;>
    rcases hm : inp.mode with _ | ⟨m, bw⟩ <;>
    simp [hv, hf, hm, isModeSet, isBandswitch] <;>
    refine ⟨?_, ?_⟩ <;> (intro a h1 h2 ha; subst ha; rfl)

lemma change_freq_filter (st : RigState) (inp : PollInputs) :
    (change_freq st inp).2.filter isModeSet = [] ∧
    (change_freq st inp).2.filter isBandswitch = [] := by
  unfold change_freq
  rcases hf : st.freq with _ | f
  · simp
  · rcases hsh : inp.shift with _ | shift <;> split_ifs <;>
      simp [isModeSet, isBandswitch]

lemma poll_keyer_filter (use_keyer : Bool) (speedIdx : Nat) (inp : PollInputs) :
    (poll_keyer use_keyer speedIdx inp).2.1.filter isModeSet = [] ∧
    (poll_keyer use_keyer speedIdx inp).2.1.filter isBandswitch = [] := by
  unfold poll_keyer
  rcases hk : inp.keyerSpeed with _ | sp <;> simp only [hk] <;> split_ifs <;>
    simp [isModeSet, isBandswitch]

lemma change_freq_some_eq (st : RigState) (inp : PollInputs) (f : Int)
    (hf : st.freq = some f) (freq : Int) (ev2 : List RigAction)
    (hcf : change_freq st inp = (some freq, ev2)) :
    freq = radio_to_display_frequency f (some st) := by
  unfold change_freq at hcf
  rw [hf] at hcf
  rcases hsh : inp.shift with _ | shift <;> rw [hsh] at hcf <;>
    split_ifs at hcf <;> simp_all

/-- Characterization of `Rig.pollFresh` in terms of the results of its
sub-calls. -/
lemma pollFresh_eq (corners : List (Nat × Nat)) (corner20low : Nat) (rig : Rig)
    (now trxmode digikeyer : Nat) (inp : PollInputs)
    (st : RigState) (ev1 : List RigAction)
    (hhw : RigState.pollHw corners now trxmode digikeyer inp = (st, ev1))
    (ofreq : Option Int) (ev2 : List RigAction)
    (hcf : change_freq st inp = (ofreq, ev2)) :
    Rig.pollFresh corners corner20low rig now trxmode digikeyer inp =
      (match ofreq with
      | none =>
        ⟨Rig.mk rig.cw_bandwidth rig.use_keyer none rig.speedIdx, ev1 ++ ev2, false⟩
      | some freq =>
        if st.bandidx ≠ rig.state.bind RigState.bandidx then
          let modeCall := set_band_mode rig.cw_bandwidth corner20low trxmode st.mode freq
          let ev3 := RigAction.sendBandswitch freq ::
            (match modeCall with
             | some (m, w) => [RigAction.setMode m w]
             | none => [])
          if modeCall.isSome ∧ ¬inp.setModeOk then
            ⟨Rig.mk rig.cw_bandwidth rig.use_keyer none rig.speedIdx,
              ev1 ++ ev2 ++ ev3, false⟩
          else
            ⟨Rig.mk rig.cw_bandwidth rig.use_keyer (some st)
                (poll_keyer rig.use_keyer rig.speedIdx inp).1,
              ev1 ++ ev2 ++ ev3 ++ (poll_keyer rig.use_keyer rig.speedIdx inp).2.1,
              (poll_keyer rig.use_keyer rig.speedIdx inp).2.2⟩
        else
          ⟨Rig.mk rig.cw_bandwidth rig.use_keyer (some st)
              (poll_keyer rig.use_keyer rig.speedIdx inp).1,
            ev1 ++ ev2 ++ (poll_keyer rig.use_keyer rig.speedIdx inp).2.1,
            (poll_keyer rig.use_keyer rig.speedIdx inp).2.2⟩ : PollResult) := by
  unfold Rig.pollFresh
  simp only [hhw, hcf]
  rcases ofreq with _ | freq
  · rfl
  · rcases hpk : poll_keyer rig.use_keyer rig.speedIdx inp with ⟨idx, ev4⟩
    simp only [hpk]

lemma pollFresh_ok_state (corners : List (Nat × Nat)) (corner20low : Nat) (rig : Rig)
    (now trxmode digikeyer : Nat) (inp : PollInputs)
    (hok : (Rig.pollFresh corners corner20low rig now trxmode digikeyer inp).ok = true) :
    (Rig.pollFresh corners corner20low rig now trxmode digikeyer inp).rig.state =
      some (RigState.pollHw corners now trxmode digikeyer inp).1 := by
  rcases hhw : RigState.pollHw corners now trxmode digikeyer inp with ⟨st, ev1⟩
  rcases hcf : change_freq st inp with ⟨ofreq, ev2⟩
  have heq := pollFresh_eq corners corner20low rig now trxmode digikeyer inp st ev1 hhw
    ofreq ev2 hcf
  rw [heq] at hok ⊢
  rcases ofreq with _ | freq
  · simp at hok
  · simp only []
    split_ifs at hok ⊢ <;> simp_all

lemma pollFresh_actions_head (corners : List (Nat × Nat)) (corner20low : Nat) (rig : Rig)
    (now trxmode digikeyer : Nat) (inp : PollInputs) :
    (Rig.pollFresh corners corner20low rig now trxmode digikeyer inp).actions.head? =
      some .readVfo := by
  rcases hhw : RigState.pollHw corners now trxmode digikeyer inp with ⟨st, ev1⟩
  rcases hcf : change_freq st inp with ⟨ofreq, ev2⟩
  have heq := pollFresh_eq corners corner20low rig now trxmode digikeyer inp st ev1 hhw
    ofreq ev2 hcf
  rw [heq]
  have hhead := (pollHw_time_head corners now trxmode digikeyer inp).2
  rw [hhw] at hhead
  simp only at hhead
  obtain ⟨tl, rfl⟩ : ∃ tl, ev1 = .readVfo :: tl := by
    cases ev1 with
    | nil => simp at hhead
    | cons x tl =>
      simp at hhead
      exact ⟨tl, by rw [hhead]⟩
  rcases ofreq with _ | freq
  · simp
  · simp only []
    split_ifs <;> simp

/-- C6: a poll made less than `POLL_PERIOD` (200 ms) after the time
recorded in the previous snapshot returns success immediately, leaves
the stored snapshot (indeed the whole rig record) unchanged, and
performs no hardware action at all; a poll made once the period has
elapsed takes the fresh path, whose first action is a hardware read
(the VFO query), and, when it succeeds, replaces the snapshot with one
stamped at the new poll time. -/
theorem poll_rate_limited (corners : List (Nat × Nat)) (corner20low : Nat) (rig : Rig)
    (now trxmode digikeyer : Nat) (inp : PollInputs) (prev : RigState)
    (hprev : rig.state = some prev) :
    (now - prev.time < POLL_PERIOD →
      Rig.poll corners corner20low rig now trxmode digikeyer inp = ⟨rig, [], true⟩) ∧
    (POLL_PERIOD ≤ now - prev.time →
      Rig.poll corners corner20low rig now trxmode digikeyer inp =
        Rig.pollFresh corners corner20low rig now trxmode digikeyer inp ∧
      (Rig.pollFresh corners corner20low rig now trxmode digikeyer inp).actions.head? =
        some .readVfo ∧
      ((Rig.pollFresh corners corner20low rig now trxmode digikeyer inp).ok = true →
        ∃ st, (Rig.pollFresh corners corner20low rig now trxmode digikeyer inp).rig.state =
            some st ∧ st.time = now)) := by
  constructor
  · intro hlt
    unfold Rig.poll
    rw [hprev]
    simp only [if_pos hlt]
  · intro hge
    refine ⟨?_, pollFresh_actions_head corners corner20low rig now trxmode digikeyer inp, ?_⟩
    · unfold Rig.poll
      rw [hprev]
      simp only [if_neg (Nat.not_lt.mpr hge)]
    · intro hok
      refine ⟨(RigState.pollHw corners now trxmode digikeyer inp).1,
        pollFresh_ok_state corners corner20low rig now trxmode digikeyer inp hok, ?_⟩
      exact (pollHw_time_head corners now trxmode digikeyer inp).1

/-- Witness for C6: a rig whose snapshot is stamped at time 0, polled at
100 ms (skipped, state untouched, no actions) and at 300 ms (fresh
path, VFO read first). -/
theorem poll_rate_limited_witness :
    Rig.poll [] 0 ⟨none, false, some ⟨none, none, none, none, none, none, 0⟩, 0⟩
        100 CWMODE 0 ⟨.fatal, none, none, 0, none, true, true, none⟩ =
      ⟨⟨none, false, some ⟨none, none, none, none, none, none, 0⟩, 0⟩, [], true⟩ ∧
    Rig.poll [] 0 ⟨none, false, some ⟨none, none, none, none, none, none, 0⟩, 0⟩
        300 CWMODE 0 ⟨.fatal, none, none, 0, none, true, true, none⟩ =
      Rig.pollFresh [] 0 ⟨none, false, some ⟨none, none, none, none, none, none, 0⟩, 0⟩
        300 CWMODE 0 ⟨.fatal, none, none, 0, none, true, true, none⟩ ∧
    (Rig.pollFresh [] 0 ⟨none, false, some ⟨none, none, none, none, none, none, 0⟩, 0⟩
        300 CWMODE 0 ⟨.fatal, none, none, 0, none, true, true, none⟩).actions.head? =
      some .readVfo := by
  have h := poll_rate_limited [] 0
    ⟨none, false, some ⟨none, none, none, none, none, none, 0⟩, 0⟩
    100 CWMODE 0 ⟨.fatal, none, none, 0, none, true, true, none⟩
    ⟨none, none, none, none, none, none, 0⟩ rfl
  have h' := poll_rate_limited [] 0
    ⟨none, false, some ⟨none, none, none, none, none, none, 0⟩, 0⟩
    300 CWMODE 0 ⟨.fatal, none, none, 0, none, true, true, none⟩
    ⟨none, none, none, none, none, none, 0⟩ rfl
  have h2 := h'.2 (by decide)
  exact ⟨h.1 (by decide), h2.1, h2.2.1⟩

lemma set_band_mode_ssb (cw : Option Int) (c20 : Nat) (rigmode : Option Nat) (freq : Int) :
    set_band_mode cw c20 SSBMODE rigmode freq = some (get_ssb_mode c20 freq, none) := by
  unfold set_band_mode
  rw [if_pos rfl]

lemma set_band_mode_cw (cw : Option Int) (c20 : Nat) (rigmode : Option Nat) (freq : Int)
    (trxmode : Nat) (h1 : trxmode ≠ SSBMODE) (h2 : trxmode ≠ DIGIMODE) :
    set_band_mode cw c20 trxmode rigmode freq = some (RIG_MODE_CW, cw) := by
  unfold set_band_mode
  rw [if_neg h1, if_neg h2]

lemma set_band_mode_digi (cw : Option Int) (c20 : Nat) (rigmode : Option Nat) (freq : Int)
    (m : Nat) (w : Option Int)
    (h : set_band_mode cw c20 DIGIMODE rigmode freq = some (m, w)) :
    m = RIG_MODE_LSB ∧ w = none ∧
    rigmode ≠ some RIG_MODE_LSB ∧ rigmode ≠ some RIG_MODE_USB ∧
    rigmode ≠ some RIG_MODE_RTTY ∧ rigmode ≠ some RIG_MODE_RTTYR := by
  unfold set_band_mode at h
  rw [if_neg (by decide), if_pos rfl] at h
  dsimp only at h
  split_ifs at h with hcond
  obtain ⟨hm, hw⟩ : RIG_MODE_LSB = m ∧ (none : Option Int) = w := by
    have := Option.some.inj h
    exact ⟨congrArg Prod.fst this, congrArg Prod.snd this⟩
  refine ⟨hm.symm, hw.symm, ?_, ?_, ?_, ?_⟩ <;> rintro rfl <;>
    simp only [Option.getD_some] at hcond <;> exact hcond (by decide)

/-- C1: on a successful fresh poll whose band index differs from the
previous snapshot's (including the first poll, whose previous index is
absent), the action log contains exactly one `send_bandswitch` — with
the display frequency — and exactly the single mode-setting call made
by `set_band_mode`: in SSB mode LSB strictly below the 20 m lower
corner and USB at or above it; in Digital mode a mode (LSB) only when
the rig's reported mode is not one of LSB/USB/RTTY/RTTY-reverse;
otherwise CW with the configured CW bandwidth.  When the band index is
unchanged, no mode-setting call and no band-switch notification occur. -/
theorem poll_band_change_mode (corners : List (Nat × Nat)) (corner20low : Nat)
    (rig : Rig) (now trxmode digikeyer : Nat) (inp : PollInputs) (f : Int)
    (hf : (RigState.pollHw corners now trxmode digikeyer inp).1.freq = some f)
    (hok : (Rig.pollFresh corners corner20low rig now trxmode digikeyer inp).ok = true) :
    ((RigState.pollHw corners now trxmode digikeyer inp).1.bandidx ≠
        rig.state.bind RigState.bandidx →
      (Rig.pollFresh corners corner20low rig now trxmode digikeyer inp).actions.filter
          isBandswitch =
        [.sendBandswitch (radio_to_display_frequency f
          (some (RigState.pollHw corners now trxmode digikeyer inp).1))] ∧
      (Rig.pollFresh corners corner20low rig now trxmode digikeyer inp).actions.filter
          isModeSet =
        (match set_band_mode rig.cw_bandwidth corner20low trxmode
            (RigState.pollHw corners now trxmode digikeyer inp).1.mode
            (radio_to_display_frequency f
              (some (RigState.pollHw corners now trxmode digikeyer inp).1)) with
         | some (m, w) => [RigAction.setMode m w]
         | none => []) ∧
      (trxmode = SSBMODE →
        (Rig.pollFresh corners corner20low rig now trxmode digikeyer inp).actions.filter
            isModeSet =
          [.setMode (if (radio_to_display_frequency f
              (some (RigState.pollHw corners now trxmode digikeyer inp).1)).toNat <
                corner20low
            then RIG_MODE_LSB else RIG_MODE_USB) none]) ∧
      (trxmode = DIGIMODE → ∀ m w,
        (RigAction.setMode m w) ∈
            (Rig.pollFresh corners corner20low rig now trxmode digikeyer inp).actions →
        m = RIG_MODE_LSB ∧
        (RigState.pollHw corners now trxmode digikeyer inp).1.mode ≠ some RIG_MODE_LSB ∧
        (RigState.pollHw corners now trxmode digikeyer inp).1.mode ≠ some RIG_MODE_USB ∧
        (RigState.pollHw corners now trxmode digikeyer inp).1.mode ≠ some RIG_MODE_RTTY ∧
        (RigState.pollHw corners now trxmode digikeyer inp).1.mode ≠ some RIG_MODE_RTTYR) ∧
      (trxmode ≠ SSBMODE → trxmode ≠ DIGIMODE →
        (Rig.pollFresh corners corner20low rig now trxmode digikeyer inp).actions.filter
            isModeSet =
          [.setMode RIG_MODE_CW rig.cw_bandwidth])) ∧
    ((RigState.pollHw corners now trxmode digikeyer inp).1.bandidx =
        rig.state.bind RigState.bandidx →
      (Rig.pollFresh corners corner20low rig now trxmode digikeyer inp).actions.filter
          isModeSet = [] ∧
      (Rig.pollFresh corners corner20low rig now trxmode digikeyer inp).actions.filter
          isBandswitch = []) := by
  rcases hhw : RigState.pollHw corners now trxmode digikeyer inp with ⟨st, ev1⟩
  rw [hhw] at hf
  dsimp only at hf ⊢
  rcases hcf : change_freq st inp with ⟨ofreq, ev2⟩
  have heq := pollFresh_eq corners corner20low rig now trxmode digikeyer inp st ev1 hhw
    ofreq ev2 hcf
  rw [heq] at hok ⊢
  rcases ofreq with _ | freq
  · simp at hok
  · have hfreq : freq = radio_to_display_frequency f (some st) :=
      change_freq_some_eq st inp f hf freq ev2 hcf
    subst hfreq
    obtain ⟨hev1m, hev1b⟩ := pollHw_filter corners now trxmode digikeyer inp
    rw [hhw] at hev1m hev1b
    simp only at hev1m hev1b
    obtain ⟨hev2m, hev2b⟩ := change_freq_filter st inp
    rw [hcf] at hev2m hev2b
    simp only at hev2m hev2b
    obtain ⟨hev4m, hev4b⟩ := poll_keyer_filter rig.use_keyer rig.speedIdx inp
    simp only [] at hok ⊢
    constructor
    · intro hbc
      rw [if_pos hbc] at hok ⊢
      by_cases hsm : (set_band_mode rig.cw_bandwidth corner20low trxmode st.mode
          (radio_to_display_frequency f (some st))).isSome ∧ ¬inp.setModeOk
      · rw [if_pos hsm] at hok
        simp at hok
      · rw [if_neg hsm] at hok ⊢
        have hfilterB :
            ((ev1 ++ ev2 ++ (RigAction.sendBandswitch
                (radio_to_display_frequency f (some st)) ::
              (match set_band_mode rig.cw_bandwidth corner20low trxmode st.mode
                  (radio_to_display_frequency f (some st)) with
               | some (m, w) => [RigAction.setMode m w]
               | none => [])) ++
              (poll_keyer rig.use_keyer rig.speedIdx inp).2.1).filter isBandswitch) =
            [RigAction.sendBandswitch (radio_to_display_frequency f (some st))] := by
          rcases hmc : set_band_mode rig.cw_bandwidth corner20low trxmode st.mode
              (radio_to_display_frequency f (some st)) with _ | ⟨m, w⟩ <;>
            simp [List.filter_append, hev1b, hev2b, hev4b, isBandswitch]
        have hfilterM :
            ((ev1 ++ ev2 ++ (RigAction.sendBandswitch
                (radio_to_display_frequency f (some st)) ::
              (match set_band_mode rig.cw_bandwidth corner20low trxmode st.mode
                  (radio_to_display_frequency f (some st)) with
               | some (m, w) => [RigAction.setMode m w]
               | none => [])) ++
              (poll_keyer rig.use_keyer rig.speedIdx inp).2.1).filter isModeSet) =
            (match set_band_mode rig.cw_bandwidth corner20low trxmode st.mode
                (radio_to_display_frequency f (some st)) with
             | some (m, w) => [RigAction.setMode m w]
             | none => []) := by
          rcases hmc : set_band_mode rig.cw_bandwidth corner20low trxmode st.mode
              (radio_to_display_frequency f (some st)) with _ | ⟨m, w⟩ <;>
            simp [List.filter_append, hev1m, hev2m, hev4m, isModeSet]
        refine ⟨hfilterB, hfilterM, ?_, ?_, ?_⟩
        · intro ht
          subst ht
          rw [hfilterM, set_band_mode_ssb]
          rfl
        · intro ht m w hmem
          subst ht
          have hmemf : RigAction.setMode m w ∈
              ((ev1 ++ ev2 ++ (RigAction.sendBandswitch
                  (radio_to_display_frequency f (some st)) ::
                (match set_band_mode rig.cw_bandwidth corner20low DIGIMODE st.mode
                    (radio_to_display_frequency f (some st)) with
                 | some (m, w) => [RigAction.setMode m w]
                 | none => [])) ++
                (poll_keyer rig.use_keyer rig.speedIdx inp).2.1).filter isModeSet) :=
            List.mem_filter.mpr ⟨hmem, rfl⟩
          rw [hfilterM] at hmemf
          rcases hsb : set_band_mode rig.cw_bandwidth corner20low DIGIMODE st.mode
              (radio_to_display_frequency f (some st)) with _ | ⟨m', w'⟩
          · rw [hsb] at hmemf
            simp at hmemf
          · rw [hsb] at hmemf
            simp only [List.mem_singleton] at hmemf
            obtain ⟨hm, hw⟩ : m = m' ∧ w = w' := by
              cases hmemf
              exact ⟨rfl, rfl⟩
            obtain ⟨hlsb, _, h1, h2, h3, h4⟩ := set_band_mode_digi _ _ _ _ _ _ hsb
            exact ⟨hm.trans hlsb, h1, h2, h3, h4⟩
        · intro ht1 ht2
          rw [hfilterM, set_band_mode_cw _ _ _ _ _ ht1 ht2]
    · intro hbc
      rw [if_neg (by simpa using hbc)] at hok ⊢
      simp [List.filter_append, hev1m, hev1b, hev2m, hev2b, hev4m, hev4b]

/-- Witness for C1: a first poll (no previous snapshot) in SSB mode at
14.1 MHz — inside the 20 m band — fires exactly one band switch with
the display frequency and one USB mode set. -/
theorem poll_band_change_mode_witness :
    (Rig.pollFresh bandcornerSample 14000000 ⟨none, false, none, 0⟩ 0 SSBMODE 0
        ⟨.ok 1, some 14100000, some (RIG_MODE_USB, 2400), 0, none, true, true, none⟩).actions.filter
        isBandswitch = [.sendBandswitch 14100000] ∧
    (Rig.pollFresh bandcornerSample 14000000 ⟨none, false, none, 0⟩ 0 SSBMODE 0
        ⟨.ok 1, some 14100000, some (RIG_MODE_USB, 2400), 0, none, true, true, none⟩).actions.filter
        isModeSet = [.setMode RIG_MODE_USB none] := by
  have h := poll_band_change_mode bandcornerSample 14000000 ⟨none, false, none, 0⟩ 0 SSBMODE 0
    ⟨.ok 1, some 14100000, some (RIG_MODE_USB, 2400), 0, none, true, true, none⟩
    14100000 (by decide) (by decide)
  have hbc := h.1 (by decide)
  constructor
  · rw [hbc.1]
    decide
  · rw [hbc.2.2.1 rfl]
    decide

end Tlf
